import Mathlib

/-!
Verification of the `tiny_cp_client` asynchronous job tracker.

This file is a shallow embedding of the repository's three source files:

* `src/app.py`   — the Flask routes `upload`, `status`, `download`, the
  in-process job store (`jobs` dict guarded by `jobs_lock`), the FIFO work
  queue (`work_q`), and the background `worker` loop;
* `src/worker.py` — the standalone worker variant (same try/except/unlink
  structure around the segmentation call);
* `src/schema.py` — the pydantic `SegmentationSettings` field validators.

Modelling conventions:

* Python floats are modelled as `ℚ` (no claim depends on binary rounding);
  Python ints as `ℤ`; strings as Lean `String`.
* Python's builtin `float(str)` / `int(str)` conversions are modelled by
  `pyFloat` / `pyInt`: strip ASCII whitespace, optional sign, decimal
  digits (with optional fraction and exponent for `float`); an empty or
  otherwise malformed remainder yields `none` (Python raises `ValueError`).
  The `inf` / `nan` / underscore forms are not modelled; no input
  considered here uses them.
* The `jobs` dict is modelled as an insertion-ordered association list
  (Python dicts preserve insertion order, and assignment to an existing
  key keeps its position — `dictInsert`).
* The filesystem is modelled, where a claim needs it, as the list of
  existing file paths.
* The external cellpose calls (`io.imread`, `MODEL.eval`,
  `tifffile.imwrite`) are opaque fallible operations, supplied to one
  worker iteration as a `WorkerEnv` of `Except String Unit` outcomes.
-/

namespace TinyCp

/-! ## Python string-to-number conversion -/

/-- Numeric value of a list of decimal digit characters (most significant
first), as accumulated left to right. -/
def digitsVal (l : List Char) : Nat :=
  l.foldl (fun a c => a * 10 + (c.toNat - 48)) 0

/-- Strip ASCII whitespace from both ends of a string, returning the
remaining characters.  Models the whitespace stripping Python's `float`
and `int` builtins perform on string input. -/
def pyStrip (s : String) : List Char :=
  ((s.toList.dropWhile Char.isWhitespace).reverse.dropWhile Char.isWhitespace).reverse

/-- Split off an optional leading sign, returning the sign as `1` or `-1`
together with the remaining characters. -/
def splitSign (l : List Char) : Int × List Char :=
  match l with
  | '+' :: r => (1, r)
  | '-' :: r => (-1, r)
  | _ => (1, l)

/-- Mantissa of a float literal: digits with an optional single dot,
requiring at least one digit overall (Python accepts `".5"` and `"5."`
but rejects `"."` and `""`). -/
def pyMantissa (l : List Char) : Option ℚ :=
  let ip := l.takeWhile (fun c => c != '.')
  let rest := l.dropWhile (fun c => c != '.')
  match rest with
  | [] =>
      if !ip.isEmpty && ip.all Char.isDigit then some (digitsVal ip : ℚ) else none
  | _ :: fp =>
      if (!ip.isEmpty || !fp.isEmpty) && ip.all Char.isDigit && fp.all Char.isDigit then
        some ((digitsVal ip : ℚ) + (digitsVal fp : ℚ) / ((10 : ℚ) ^ fp.length))
      else none

/-- Model of Python's `float(s)` on a string argument: `some q` when the
conversion succeeds with value `q`, `none` when Python raises
`ValueError`.  In particular a whitespace-only string yields `none`. -/
def pyFloat (s : String) : Option ℚ :=
  let t := pyStrip s
  let (sign, u) := splitSign t
  let mant := u.takeWhile (fun c => c != 'e' && c != 'E')
  let expPart := u.dropWhile (fun c => c != 'e' && c != 'E')
  match pyMantissa mant with
  | none => none
  | some m =>
    match expPart with
    | [] => some ((sign : ℚ) * m)
    | _ :: es =>
      let (esign, ed) := splitSign es
      if !ed.isEmpty && ed.all Char.isDigit then
        some ((sign : ℚ) * m * (10 : ℚ) ^ (esign * (digitsVal ed : Int)))
      else none

/-- Model of Python's `int(s)` on a string argument: optional whitespace
and sign around a nonempty run of decimal digits; anything else raises
`ValueError`, modelled as `none`. -/
def pyInt (s : String) : Option ℤ :=
  let t := pyStrip s
  let (sign, u) := splitSign t
  if !u.isEmpty && u.all Char.isDigit then some (sign * (digitsVal u : ℤ)) else none

/-! ## Association lists: the `jobs` dict and the request form -/

/-- First-match lookup in an association list keyed by strings; models
`d[k]` / `d.get(k)` on a Python dict represented in insertion order. -/
def lookupKey {α : Type} : List (String × α) → String → Option α
  | [], _ => none
  | (k, v) :: rest, key => if k = key then some v else lookupKey rest key

/-- Replace the value at the first occurrence of a key, keeping the
position; models assignment `d[k] = v` on a dict that already holds `k`. -/
def updateKey {α : Type} : List (String × α) → String → α → List (String × α)
  | [], _, _ => []
  | (k, v) :: rest, key, newV =>
      if k = key then (k, newV) :: rest else (k, v) :: updateKey rest key newV

/-- Keys of an association list, in insertion order. -/
def keysOf {α : Type} (l : List (String × α)) : List String := l.map Prod.fst

/-- Python dict assignment `d[k] = v`: update in place when the key is
present, append at the end otherwise. -/
def dictInsert {α : Type} (l : List (String × α)) (k : String) (v : α) :
    List (String × α) :=
  match lookupKey l k with
  | some _ => updateKey l k v
  | none => l ++ [(k, v)]

/-- The multipart form of an upload request: field name to raw string
value (`request.form`). -/
abbrev Form := List (String × String)

/-! ## Settings parsing in `upload` (src/app.py lines 265-291) -/

/-- `_float_or(key, default)` from `src/app.py` at a non-`None` default:
`float(request.form[key])`, falling back to the default on `KeyError`
(field absent) or `ValueError` (malformed). -/
def floatOr (form : Form) (key : String) (d : ℚ) : ℚ :=
  match lookupKey form key with
  | none => d
  | some s => (pyFloat s).getD d

/-- `_float_or(key, None)` from `src/app.py`: as `floatOr` but the
default is Python `None`. -/
def floatOrNone (form : Form) (key : String) : Option ℚ :=
  match lookupKey form key with
  | none => none
  | some s => pyFloat s

/-- `_int_or(key, default)` from `src/app.py`:
`int(request.form[key])`, falling back to the default on `KeyError` or
`ValueError`. -/
def intOr (form : Form) (key : String) (d : ℤ) : ℤ :=
  match lookupKey form key with
  | none => d
  | some s => (pyInt s).getD d

/-- The `settings` dict built by `upload` (src/app.py lines 277-291). -/
structure JobSettings where
  diameter : Option ℚ
  channels : List ℤ
  flow_threshold : ℚ
  cellprob_threshold : ℚ
  min_size : ℤ
deriving DecidableEq, Repr

/-- Settings construction in `upload`: parse each form field with its
default, coerce a non-positive diameter to `None`, and store the two
channel indices as the list `[chan_cyto, chan_nuc]`. -/
def uploadSettings (form : Form) : JobSettings :=
  let diameter0 := floatOrNone form "diameter"
  let diameter : Option ℚ :=
    match diameter0 with
    | some d => if d ≤ 0 then none else some d
    | none => none
  let chan_cyto := intOr form "channel_cyto" 0
  let chan_nuc := intOr form "channel_nuc" 0
  { diameter := diameter
    channels := [chan_cyto, chan_nuc]
    flow_threshold := floatOr form "flow_threshold" (2/5)
    cellprob_threshold := floatOr form "cellprob_threshold" 0
    min_size := intOr form "min_size" 15 }

/-! ## Path helpers (`pathlib.Path` stem/suffix on the upload filename) -/

/-- Final path component of a filename (`Path(name).name`). -/
def lastComponent (s : String) : String :=
  String.mk ((s.toList.reverse.takeWhile (fun c => c != '/')).reverse)

/-- Split a path component into `(stem, suffix)` at the last dot, with
`pathlib`'s conventions: no dot, a leading dot only, or a trailing dot
gives an empty suffix. -/
def splitExt (name : String) : String × String :=
  let r := name.toList.reverse
  let ext := r.takeWhile (fun c => c != '.')
  let rest := r.dropWhile (fun c => c != '.')
  match rest with
  | [] => (name, "")
  | [_] => (name, "")
  | _ :: stemRev =>
      if ext.isEmpty then (name, "")
      else (String.mk stemRev.reverse, String.mk ('.' :: ext.reverse))

/-- `Path(filename).stem`. -/
def pathStem (filename : String) : String := (splitExt (lastComponent filename)).1

/-- `Path(filename).suffix`. -/
def pathSuffix (filename : String) : String := (splitExt (lastComponent filename)).2

/-- First `n` characters of a string (`s[:n]` in Python). -/
def strTake (s : String) (n : Nat) : String := String.mk (s.toList.take n)

/-! ## Job records and the store -/

/-- Job status strings used in the store. -/
inductive Status where
  | queued
  | processing
  | done
  | error
deriving DecidableEq, Repr

/-- A job record as created by `upload` and mutated by the worker
(src/app.py lines 294-302). -/
structure Job where
  name : String
  stem : String
  upload_path : String
  status : Status
  result : Option String
  error : Option String
  settings : JobSettings
deriving DecidableEq, Repr

/-- The job record inserted by `upload` for a fresh identifier: original
filename, derived stem, identifier-qualified upload path (suffix
defaulting to `.tif`), status `queued`, null result and error, and the
parsed settings. -/
def mkJob (fn : String) (form : Form) (id : String) : Job :=
  let stem := pathStem fn
  let sfx := pathSuffix fn
  let suffix := if sfx = "" then ".tif" else sfx
  { name := fn
    stem := stem
    upload_path := "uploads/" ++ stem ++ "_" ++ strTake id 8 ++ suffix
    status := Status.queued
    result := none
    error := none
    settings := uploadSettings form }

/-! ## System state and the `upload` route -/

/-- Shared mutable state of the process: the `jobs` dict (insertion
ordered), the FIFO `work_q` (head = next to dequeue), and the identifier
the single worker is currently processing, if any. -/
structure SysState where
  jobs : List (String × Job)
  queue : List String
  worker : Option String
deriving DecidableEq, Repr

/-- The `upload` route (src/app.py lines 252-304): reject when no file or
an empty filename is supplied; otherwise build the job record, insert it
into the store (under the lock) and only then enqueue the identifier.
The fresh `uuid4` identifier is passed in explicitly. -/
def upload (s : SysState) (id : String) (filename : Option String) (form : Form) :
    Except String (String × SysState) :=
  match filename with
  | none => Except.error "no file"
  | some fn =>
      if fn = "" then Except.error "no file"
      else
        Except.ok (id,
          { jobs := dictInsert s.jobs id (mkJob fn form id)
            queue := s.queue ++ [id]
            worker := s.worker })

/-! ## One worker iteration (src/app.py lines 45-67, src/worker.py 53-86) -/

/-- Outcomes of the three opaque external operations inside the worker's
`try` block, in program order: image load, segmentation, result write. -/
structure WorkerEnv where
  imread : Except String Unit
  eval : Except String Unit
  imwrite : Except String Unit
deriving Repr

/-- The result path `RESULT_DIR / f"{stem}_{job_id[:8]}_masks.tif"`. -/
def resultPathFor (j : Job) (jobId : String) : String :=
  "results/" ++ j.stem ++ "_" ++ strTake jobId 8 ++ "_masks.tif"

/-- The worker's `try/except` body for one job, given the outcomes of the
external calls and the current upload filesystem (list of existing
paths).  On full success: the result file is written, the input artifact
is unlinked (`missing_ok=True`), and the job becomes `done` with its
result path.  Any failure is caught and the job becomes `error` with the
exception message; the filesystem is left untouched on that path. -/
def runTry (env : WorkerEnv) (j : Job) (jobId : String) (fs : List String) :
    Job × List String :=
  match env.imread with
  | Except.error m => ({ j with status := Status.error, error := some m }, fs)
  | Except.ok _ =>
    match env.eval with
    | Except.error m => ({ j with status := Status.error, error := some m }, fs)
    | Except.ok _ =>
      match env.imwrite with
      | Except.error m => ({ j with status := Status.error, error := some m }, fs)
      | Except.ok _ =>
          ({ j with status := Status.done, result := some (resultPathFor j jobId) },
            (fs.insert (resultPathFor j jobId)).erase j.upload_path)

/-! ## The `status` route (poll) and the `download` route -/

/-- The externally visible fields of a job: `upload_path`, `stem` and
`settings` are stripped before serialization (src/app.py lines 312-316). -/
structure PublicView where
  name : String
  status : Status
  result : Option String
  error : Option String
deriving DecidableEq, Repr

/-- Strip the internal fields of a job record. -/
def publicView (j : Job) : PublicView :=
  { name := j.name, status := j.status, result := j.result, error := j.error }

/-- The `status` route as an atomic snapshot: copy the items, reverse to
newest-first, strip internal fields (src/app.py lines 307-316). -/
def pollStatus (jobs : List (String × Job)) : List (String × PublicView) :=
  (jobs.reverse).map (fun p => (p.1, publicView p.2))

/-- The identifiers captured by `items = list(jobs.items())` under the
lock: the pair list is copied, but each pair holds a live reference to
the (mutable) job dict, so only the keys and their order are fixed at
snapshot time. -/
def snapshotIds (jobs : List (String × Job)) : List String := keysOf jobs

/-- Serialization of a snapshot after the lock is released: the reversal
and the field reads happen against the store as it is at read time (the
job dicts are shared references, not copies). -/
def serializeSnapshot (ids : List String) (jobs : List (String × Job)) :
    List (String × Option PublicView) :=
  ids.reverse.map (fun id => (id, (lookupKey jobs id).map publicView))

/-- The worker's first terminal write, `jobs[job_id]["status"] = st`, as
an individually visible store mutation (a reader that does not hold the
lock can observe the store between this write and the next one). -/
def writeStatus (jobs : List (String × Job)) (id : String) (st : Status) :
    List (String × Job) :=
  match lookupKey jobs id with
  | some j => updateKey jobs id { j with status := st }
  | none => jobs

/-- The worker's second terminal write, `jobs[job_id]["result"] = p`. -/
def writeResult (jobs : List (String × Job)) (id : String) (p : String) :
    List (String × Job) :=
  match lookupKey jobs id with
  | some j => updateKey jobs id { j with result := some p }
  | none => jobs

/-- Errors of the `download` route. -/
inductive DlError where
  | notFound
  | notReady
  | resultMissing
deriving DecidableEq, Repr

/-- The `download` route (src/app.py lines 319-331): 404 unknown job,
409 not ready, 404 result file missing (null/empty path or absent on the
filesystem), else the artifact is served. -/
def download (jobs : List (String × Job)) (fs : List String) (job_id : String) :
    Except DlError String :=
  match lookupKey jobs job_id with
  | none => Except.error DlError.notFound
  | some job =>
      if job.status ≠ Status.done then Except.error DlError.notReady
      else
        match job.result with
        | none => Except.error DlError.resultMissing
        | some p =>
            if p = "" ∨ p ∉ fs then Except.error DlError.resultMissing
            else Except.ok p

/-- The `download` route together with the store it leaves behind: the
handler only reads the store (a single `jobs.get` under the lock) and
never writes it. -/
def downloadHandler (s : SysState) (fs : List String) (job_id : String) :
    Except DlError String × SysState :=
  (download s.jobs fs job_id, s)

/-! ## The concurrent system as a transition relation

Each constructor is one atomic block of the source as seen by any thread
that takes `jobs_lock`:

* `submit` — the `upload` route.  The store insert happens under the lock
  and completes before `work_q.put(job_id)`, so no interleaving observes
  the identifier in the queue without its record in the store; the whole
  route is therefore one step whose effect is given by `upload`.  The
  hypothesis `lookupKey s.jobs id = none` models `uuid4` freshness (the
  spec: an identifier is never reused).
* `dequeue` — the worker's `work_q.get()` followed by the locked block
  that reads the job's fields and sets `status = "processing"`.  It
  requires `s.worker = none`: the single worker is otherwise busy.
* `finish` — the worker's `try/except` body and the locked terminal
  write; the outcome of the opaque external calls is quantified as a
  `WorkerEnv` (and the upload filesystem, which the store does not
  observe, as `fs`).
-/

/-- One atomic transition of the job tracker. -/
inductive Step : SysState → SysState → Prop where
  | submit (s : SysState) (id fn : String) (form : Form) (s' : SysState) :
      lookupKey s.jobs id = none →
      upload s id (some fn) form = Except.ok (id, s') →
      Step s s'
  | dequeue (s : SysState) (id : String) (rest : List String) (j : Job) :
      s.worker = none →
      s.queue = id :: rest →
      lookupKey s.jobs id = some j →
      Step s ⟨updateKey s.jobs id { j with status := Status.processing }, rest, some id⟩
  | finish (s : SysState) (id : String) (j : Job) (env : WorkerEnv) (fs : List String) :
      s.worker = some id →
      lookupKey s.jobs id = some j →
      Step s ⟨updateKey s.jobs id (runTry env j id fs).1, s.queue, none⟩

/-- States reachable from the initial empty state (empty store, empty
queue, idle worker). -/
inductive Reachable : SysState → Prop where
  | init : Reachable ⟨[], [], none⟩
  | step {s s' : SysState} : Reachable s → Step s s' → Reachable s'

/-- Reflexive-transitive closure of `Step`. -/
inductive StepStar : SysState → SysState → Prop where
  | refl (s : SysState) : StepStar s s
  | tail {s t u : SysState} : StepStar s t → Step t u → StepStar s u

/-! ## The pydantic field validator `_parse_anisotropy` (src/schema.py) -/

/-- A raw value handed to a pydantic `mode="before"` field validator:
Python `None`, a string, or an already-numeric value. -/
inductive PyVal where
  | none
  | str (s : String)
  | num (q : ℚ)
deriving DecidableEq, Repr

/-- `_parse_anisotropy` from `src/schema.py`: `None` and the exact empty
string map to `None`; any other string goes through `float(v)`, which
raises `ValueError` (modelled as `Except.error`, with an abbreviated
message) when the string does not parse; numeric input passes through. -/
def parse_anisotropy (v : PyVal) : Except String (Option ℚ) :=
  match v with
  | PyVal.none => Except.ok Option.none
  | PyVal.str s =>
      if s = "" then Except.ok Option.none
      else
        match pyFloat s with
        | some q => Except.ok (some q)
        | Option.none => Except.error ("could not convert string to float: " ++ s)
  | PyVal.num q => Except.ok (some q)

/-- The anisotropy field of a submission: an absent field takes the
pydantic default `None` without running the validator; a present value
runs `_parse_anisotropy`. -/
def anisotropyField (v : Option PyVal) : Except String (Option ℚ) :=
  match v with
  | Option.none => Except.ok Option.none
  | some pv => parse_anisotropy pv

/-! ## Status transitions allowed by the state machine -/

/-- The transitions of the job state machine
`queued → processing → (done or error)`, reflexively: a step either
leaves a status unchanged or advances it one edge along the chain. -/
abbrev statusStepAllowed (a b : Status) : Prop :=
  a = b ∨ (a = Status.queued ∧ b = Status.processing) ∨
    (a = Status.processing ∧ (b = Status.done ∨ b = Status.error))

/-! ## The store invariant -/

/-- Invariant of every reachable system state: the store and queue hold
no duplicate keys, every queued identifier maps to a `queued` record,
the worker's current identifier maps to a `processing` record and is not
queued, and each record's `result`/`error` field is non-null exactly for
the corresponding terminal status. -/
structure Inv (s : SysState) : Prop where
  nodupKeys : (keysOf s.jobs).Nodup
  nodupQueue : s.queue.Nodup
  workerNotQueued : ∀ id, s.worker = some id → id ∉ s.queue
  queuedInStore : ∀ id, id ∈ s.queue →
    ∃ j, lookupKey s.jobs id = some j ∧ j.status = Status.queued
  workerProcessing : ∀ id, s.worker = some id →
    ∃ j, lookupKey s.jobs id = some j ∧ j.status = Status.processing
  resultIff : ∀ id j, lookupKey s.jobs id = some j →
    (j.result.isSome ↔ j.status = Status.done)
  errorIff : ∀ id j, lookupKey s.jobs id = some j →
    (j.error.isSome ↔ j.status = Status.error)

/-! ## Concrete example run (used by the witnesses) -/

/-- An empty submission form: every settings field takes its default. -/
def exForm : Form := []

/-- The job record produced by submitting `x.tif` with default settings
under identifier `job-1`. -/
def exJob : Job := mkJob "x.tif" exForm "job-1"

/-- State after one submission. -/
def exS1 : SysState := ⟨[("job-1", exJob)], ["job-1"], none⟩

/-- State after the worker dequeues the job. -/
def exS2 : SysState :=
  ⟨[("job-1", { exJob with status := Status.processing })], [], some "job-1"⟩

/-- A worker environment in which all three external calls succeed. -/
def exEnvOk : WorkerEnv := ⟨Except.ok (), Except.ok (), Except.ok ()⟩

/-! ## Association-list lemmas -/

theorem lookupKey_eq_none_iff {α : Type} (l : List (String × α)) (k : String) :
    lookupKey l k = none ↔ k ∉ keysOf l := by
  induction l with
  | nil => simp [lookupKey, keysOf]
  | cons p rest ih =>
      obtain ⟨k', v⟩ := p
      simp only [lookupKey, keysOf, List.map_cons, List.mem_cons]
      by_cases h : k' = k
      · subst h
        simp
      · rw [if_neg h, ih]
        constructor
        · intro hn hmem
          rcases hmem with hmem | hmem
          · exact h hmem.symm
          · exact hn hmem
        · intro hn hmem
          exact hn (Or.inr hmem)

theorem lookupKey_append_left {α : Type} {l : List (String × α)} {k : String} {v : α}
    (h : lookupKey l k = some v) (l₂ : List (String × α)) :
    lookupKey (l ++ l₂) k = some v := by
  induction l with
  | nil => simp [lookupKey] at h
  | cons p rest ih =>
      obtain ⟨k', w⟩ := p
      by_cases hk : k' = k <;> simp [lookupKey, hk] at h ⊢ <;> simp_all

theorem lookupKey_append_right {α : Type} {l : List (String × α)} {k : String}
    (h : lookupKey l k = none) (l₂ : List (String × α)) :
    lookupKey (l ++ l₂) k = lookupKey l₂ k := by
  induction l with
  | nil => simp [lookupKey]
  | cons p rest ih =>
      obtain ⟨k', w⟩ := p
      by_cases hk : k' = k <;> simp [lookupKey, hk] at h ⊢ <;> simp_all

theorem lookupKey_update_self {α : Type} {l : List (String × α)} {k : String} {v : α}
    (h : lookupKey l k = some v) (w : α) :
    lookupKey (updateKey l k w) k = some w := by
  induction l with
  | nil => simp [lookupKey] at h
  | cons p rest ih =>
      obtain ⟨k', v'⟩ := p
      by_cases hk : k' = k <;> simp [lookupKey, updateKey, hk] at h ⊢ <;> simp_all

theorem lookupKey_update_ne {α : Type} (l : List (String × α)) {k k' : String} (w : α)
    (h : k' ≠ k) :
    lookupKey (updateKey l k w) k' = lookupKey l k' := by
  induction l with
  | nil => simp [updateKey]
  | cons p rest ih =>
      obtain ⟨k₀, v⟩ := p
      by_cases hk : k₀ = k
      · subst hk
        simp only [updateKey, if_pos rfl, lookupKey]
        rw [if_neg (fun hh => h hh.symm), if_neg (fun hh => h hh.symm)]
      · simp only [updateKey, if_neg hk, lookupKey]
        by_cases hk' : k₀ = k'
        · simp [hk']
        · simp [hk', ih]

theorem keysOf_update {α : Type} (l : List (String × α)) (k : String) (w : α) :
    keysOf (updateKey l k w) = keysOf l := by
  induction l with
  | nil => simp [updateKey]
  | cons p rest ih =>
      obtain ⟨k₀, v⟩ := p
      by_cases hk : k₀ = k <;> simp [updateKey, keysOf, hk] at ih ⊢ <;> simp_all

theorem keysOf_append {α : Type} (l l₂ : List (String × α)) :
    keysOf (l ++ l₂) = keysOf l ++ keysOf l₂ := by
  simp [keysOf]

theorem lookupKey_isSome_of_mem {α : Type} {l : List (String × α)} {k : String}
    (h : k ∈ keysOf l) : ∃ v, lookupKey l k = some v := by
  rcases hl : lookupKey l k with _ | v
  · exact absurd ((lookupKey_eq_none_iff l k).mp hl) (by simp [h])
  · exact ⟨v, rfl⟩

theorem mem_keysOf_of_lookup {α : Type} {l : List (String × α)} {k : String} {v : α}
    (h : lookupKey l k = some v) : k ∈ keysOf l := by
  by_contra hmem
  rw [(lookupKey_eq_none_iff l k).mpr hmem] at h
  cases h

theorem dictInsert_of_fresh {α : Type} {l : List (String × α)} {k : String}
    (h : lookupKey l k = none) (v : α) :
    dictInsert l k v = l ++ [(k, v)] := by
  simp [dictInsert, h]

theorem lookupKey_dictInsert_self {α : Type} (l : List (String × α)) (k : String) (v : α) :
    lookupKey (dictInsert l k v) k = some v := by
  rcases h : lookupKey l k with _ | w
  · rw [dictInsert_of_fresh h, lookupKey_append_right h]
    simp [lookupKey]
  · simp only [dictInsert, h]
    exact lookupKey_update_self h v

/-! ## Worker-iteration case analysis -/

theorem runTry_fst_cases (env : WorkerEnv) (j : Job) (id : String) (fs : List String) :
    (runTry env j id fs).1 =
        { j with status := Status.done, result := some (resultPathFor j id) } ∨
      ∃ m, (runTry env j id fs).1 = { j with status := Status.error, error := some m } := by
  rcases env with ⟨ir, ev, iw⟩
  cases ir with
  | error m => exact Or.inr ⟨m, rfl⟩
  | ok u =>
    cases ev with
    | error m => exact Or.inr ⟨m, rfl⟩
    | ok u2 =>
      cases iw with
      | error m => exact Or.inr ⟨m, rfl⟩
      | ok u3 => exact Or.inl rfl

theorem runTry_snd_of_error (env : WorkerEnv) (j : Job) (id : String) (fs : List String)
    (h : (runTry env j id fs).1.status = Status.error) :
    (runTry env j id fs).2 = fs := by
  rcases env with ⟨ir, ev, iw⟩
  cases ir with
  | error m => rfl
  | ok u =>
    cases ev with
    | error m => rfl
    | ok u2 =>
      cases iw with
      | error m => rfl
      | ok u3 => simp [runTry] at h

theorem runTry_snd_of_done (env : WorkerEnv) (j : Job) (id : String) (fs : List String)
    (h : (runTry env j id fs).1.status = Status.done) :
    (runTry env j id fs).2 = (fs.insert (resultPathFor j id)).erase j.upload_path := by
  rcases env with ⟨ir, ev, iw⟩
  cases ir with
  | error m => simp [runTry] at h
  | ok u =>
    cases ev with
    | error m => simp [runTry] at h
    | ok u2 =>
      cases iw with
      | error m => simp [runTry] at h
      | ok u3 => rfl

theorem upload_ok_inv {s : SysState} {id fn id' : String} {form : Form} {s' : SysState}
    (h : upload s id (some fn) form = Except.ok (id', s')) :
    id' = id ∧ fn ≠ "" ∧
      s' = ⟨dictInsert s.jobs id (mkJob fn form id), s.queue ++ [id], s.worker⟩ := by
  by_cases hfn : fn = ""
  · simp [upload, hfn] at h
  · simp [upload, hfn] at h
    exact ⟨h.1.symm, hfn, h.2.symm⟩

theorem lookup_unique {α : Type} {l : List (String × α)} {k : String} {a b : α}
    (h1 : lookupKey l k = some a) (h2 : lookupKey l k = some b) : a = b := by
  rw [h1] at h2
  injection h2

theorem inv_init : Inv ⟨[], [], none⟩ := by
  refine ⟨?_, ?_, ?_, ?_, ?_, ?_, ?_⟩ <;> simp [keysOf, lookupKey]

theorem inv_step {s s' : SysState} (hInv : Inv s) (hStep : Step s s') : Inv s' := by
  cases hStep with
  | submit id fn form s2 hfresh hok =>
      obtain ⟨-, hfn, hs'⟩ := upload_ok_inv hok
      subst hs'
      rw [dictInsert_of_fresh hfresh]
      have hidkeys : id ∉ keysOf s.jobs := (lookupKey_eq_none_iff s.jobs id).mp hfresh
      have hidqueue : id ∉ s.queue := by
        intro hmem
        obtain ⟨j, hj, -⟩ := hInv.queuedInStore id hmem
        rw [hfresh] at hj
        cases hj
      have hlookNew : lookupKey (s.jobs ++ [(id, mkJob fn form id)]) id
          = some (mkJob fn form id) := by
        rw [lookupKey_append_right hfresh]
        simp [lookupKey]
      have hcase : ∀ id₀ j₀,
          lookupKey (s.jobs ++ [(id, mkJob fn form id)]) id₀ = some j₀ →
          lookupKey s.jobs id₀ = some j₀ ∨ (id₀ = id ∧ j₀ = mkJob fn form id) := by
        intro id₀ j₀ h₀
        rcases hold : lookupKey s.jobs id₀ with _ | j₁
        · rw [lookupKey_append_right hold] at h₀
          simp only [lookupKey] at h₀
          by_cases hid : id = id₀
          · rw [if_pos hid] at h₀
            injection h₀ with h₀
            exact Or.inr ⟨hid.symm, h₀.symm⟩
          · rw [if_neg hid] at h₀
            cases h₀
        · have hleft := lookupKey_append_left hold [(id, mkJob fn form id)]
          have hj01 : j₀ = j₁ := lookup_unique h₀ hleft
          subst hj01
          exact Or.inl rfl
      refine ⟨?_, ?_, ?_, ?_, ?_, ?_, ?_⟩
      · rw [keysOf_append]
        refine List.Nodup.append hInv.nodupKeys (by simp [keysOf]) ?_
        simpa [keysOf, List.disjoint_singleton] using hidkeys
      · exact List.Nodup.append hInv.nodupQueue (by simp)
          (by simpa [List.disjoint_singleton] using hidqueue)
      · intro wid hw hmem
        obtain ⟨j, hj, -⟩ := hInv.workerProcessing wid hw
        rcases List.mem_append.mp hmem with hmem | hmem
        · exact hInv.workerNotQueued wid hw hmem
        · have : wid = id := by simpa using hmem
          subst this
          rw [hfresh] at hj
          cases hj
      · intro qid hmem
        rcases List.mem_append.mp hmem with hmem | hmem
        · obtain ⟨j, hj, hst⟩ := hInv.queuedInStore qid hmem
          exact ⟨j, lookupKey_append_left hj _, hst⟩
        · have hqid : qid = id := by simpa using hmem
          rw [hqid]
          exact ⟨_, hlookNew, rfl⟩
      · intro wid hw
        obtain ⟨j, hj, hst⟩ := hInv.workerProcessing wid hw
        exact ⟨j, lookupKey_append_left hj _, hst⟩
      · intro id₀ j₀ h₀
        rcases hcase id₀ j₀ h₀ with h | ⟨-, hj⟩
        · exact hInv.resultIff id₀ j₀ h
        · subst hj
          simp [mkJob]
      · intro id₀ j₀ h₀
        rcases hcase id₀ j₀ h₀ with h | ⟨-, hj⟩
        · exact hInv.errorIff id₀ j₀ h
        · subst hj
          simp [mkJob]
  | dequeue id rest j hw hq hj =>
      have hqmem : id ∈ s.queue := by rw [hq]; exact List.mem_cons_self id rest
      obtain ⟨j₁, hj₁, hst₁⟩ := hInv.queuedInStore id hqmem
      have hjq : j.status = Status.queued := by
        rw [lookup_unique hj hj₁]
        exact hst₁
      have hnodupq := hInv.nodupQueue
      rw [hq] at hnodupq
      have hidrest : id ∉ rest := (List.nodup_cons.mp hnodupq).1
      have hrestnodup : rest.Nodup := (List.nodup_cons.mp hnodupq).2
      have hlookNew : lookupKey (updateKey s.jobs id { j with status := Status.processing }) id
          = some { j with status := Status.processing } := lookupKey_update_self hj _
      refine ⟨?_, ?_, ?_, ?_, ?_, ?_, ?_⟩
      · rw [keysOf_update]
        exact hInv.nodupKeys
      · exact hrestnodup
      · intro wid hwid hmem
        have hwi : id = wid := by injection hwid
        rw [← hwi] at hmem
        exact hidrest hmem
      · intro qid hmem
        have hne : qid ≠ id := fun h => hidrest (h ▸ hmem)
        rw [lookupKey_update_ne _ _ hne]
        exact hInv.queuedInStore qid (by rw [hq]; exact List.mem_cons_of_mem _ hmem)
      · intro wid hwid
        have hwi : id = wid := by injection hwid
        rw [← hwi]
        exact ⟨_, hlookNew, rfl⟩
      · intro id₀ j₀ h₀
        by_cases hid : id₀ = id
        · subst hid
          have := lookup_unique h₀ hlookNew
          subst this
          have hres := hInv.resultIff id₀ j hj
          simp [hjq] at hres
          simp [hres]
        · rw [lookupKey_update_ne _ _ hid] at h₀
          exact hInv.resultIff id₀ j₀ h₀
      · intro id₀ j₀ h₀
        by_cases hid : id₀ = id
        · subst hid
          have := lookup_unique h₀ hlookNew
          subst this
          have herr := hInv.errorIff id₀ j hj
          simp [hjq] at herr
          simp [herr]
        · rw [lookupKey_update_ne _ _ hid] at h₀
          exact hInv.errorIff id₀ j₀ h₀
  | finish id j env fs hw hj =>
      obtain ⟨j₁, hj₁, hst₁⟩ := hInv.workerProcessing id hw
      have hjp : j.status = Status.processing := by
        rw [lookup_unique hj hj₁]
        exact hst₁
      have hresNone : j.result = none := by
        have := hInv.resultIff id j hj
        simp [hjp] at this
        exact this
      have herrNone : j.error = none := by
        have := hInv.errorIff id j hj
        simp [hjp] at this
        exact this
      have hlookNew : lookupKey (updateKey s.jobs id (runTry env j id fs).1) id
          = some (runTry env j id fs).1 := lookupKey_update_self hj _
      refine ⟨?_, ?_, ?_, ?_, ?_, ?_, ?_⟩
      · rw [keysOf_update]
        exact hInv.nodupKeys
      · exact hInv.nodupQueue
      · intro wid hwid
        cases hwid
      · intro qid hmem
        have hne : qid ≠ id := fun h => hInv.workerNotQueued id hw (h ▸ hmem)
        rw [lookupKey_update_ne _ _ hne]
        exact hInv.queuedInStore qid hmem
      · intro wid hwid
        cases hwid
      · intro id₀ j₀ h₀
        by_cases hid : id₀ = id
        · subst hid
          have := lookup_unique h₀ hlookNew
          subst this
          rcases runTry_fst_cases env j id₀ fs with hcase | ⟨m, hcase⟩
          · rw [hcase]
            simp
          · rw [hcase]
            simp [hresNone]
        · rw [lookupKey_update_ne _ _ hid] at h₀
          exact hInv.resultIff id₀ j₀ h₀
      · intro id₀ j₀ h₀
        by_cases hid : id₀ = id
        · subst hid
          have := lookup_unique h₀ hlookNew
          subst this
          rcases runTry_fst_cases env j id₀ fs with hcase | ⟨m, hcase⟩
          · rw [hcase]
            simp [herrNone]
          · rw [hcase]
            simp
        · rw [lookupKey_update_ne _ _ hid] at h₀
          exact hInv.errorIff id₀ j₀ h₀

theorem inv_reachable {s : SysState} (h : Reachable s) : Inv s := by
  induction h with
  | init => exact inv_init
  | step hr hs ih => exact inv_step ih hs

theorem reachable_star {s t : SysState} (hr : Reachable s) (hst : StepStar s t) :
    Reachable t := by
  induction hst with
  | refl => exact hr
  | tail hst' hstep ih => exact Reachable.step ih hstep

/-! ## Per-step status evolution -/

theorem step_job_monotone {s s' : SysState} (hInv : Inv s) (hStep : Step s s') :
    (∀ id j', lookupKey s.jobs id = none → lookupKey s'.jobs id = some j' →
      j'.status = Status.queued) ∧
    (∀ id j j', lookupKey s.jobs id = some j → lookupKey s'.jobs id = some j' →
      statusStepAllowed j.status j'.status) := by
  cases hStep with
  | submit id fn form s2 hfresh hok =>
      obtain ⟨-, hfn, hs'⟩ := upload_ok_inv hok
      subst hs'
      rw [dictInsert_of_fresh hfresh]
      constructor
      · intro id₀ j' h0 h1
        have h1' : lookupKey (s.jobs ++ [(id, mkJob fn form id)]) id₀ = some j' := h1
        rw [lookupKey_append_right h0] at h1'
        simp only [lookupKey] at h1'
        by_cases hid : id = id₀
        · rw [if_pos hid] at h1'
          injection h1' with h1'
          rw [← h1']
          rfl
        · rw [if_neg hid] at h1'
          cases h1'
      · intro id₀ j j' h0 h1
        have h1' : lookupKey (s.jobs ++ [(id, mkJob fn form id)]) id₀ = some j' := h1
        have hleft := lookupKey_append_left h0 [(id, mkJob fn form id)]
        have hjj : j' = j := lookup_unique h1' hleft
        rw [hjj]
        exact Or.inl rfl
  | dequeue id rest j hw hq hj =>
      have hqmem : id ∈ s.queue := by rw [hq]; exact List.mem_cons_self id rest
      obtain ⟨j₁, hj₁, hst₁⟩ := hInv.queuedInStore id hqmem
      have hjq : j.status = Status.queued := by
        rw [lookup_unique hj hj₁]
        exact hst₁
      constructor
      · intro id₀ j' h0 h1
        by_cases hid : id₀ = id
        · rw [hid] at h0
          rw [h0] at hj
          cases hj
        · have h1' : lookupKey (updateKey s.jobs id { j with status := Status.processing })
              id₀ = some j' := h1
          rw [lookupKey_update_ne _ _ hid, h0] at h1'
          cases h1'
      · intro id₀ j₀ j' h0 h1
        have h1' : lookupKey (updateKey s.jobs id { j with status := Status.processing })
            id₀ = some j' := h1
        by_cases hid : id₀ = id
        · rw [hid] at h0 h1'
          have hj0 : j₀ = j := lookup_unique h0 hj
          have hnew := lookupKey_update_self hj { j with status := Status.processing }
          have hj' : j' = { j with status := Status.processing } := lookup_unique h1' hnew
          rw [hj0, hj']
          exact Or.inr (Or.inl ⟨hjq, rfl⟩)
        · rw [lookupKey_update_ne _ _ hid] at h1'
          have hjj : j' = j₀ := lookup_unique h1' h0
          rw [hjj]
          exact Or.inl rfl
  | finish id j env fs hw hj =>
      obtain ⟨j₁, hj₁, hst₁⟩ := hInv.workerProcessing id hw
      have hjp : j.status = Status.processing := by
        rw [lookup_unique hj hj₁]
        exact hst₁
      constructor
      · intro id₀ j' h0 h1
        by_cases hid : id₀ = id
        · rw [hid] at h0
          rw [h0] at hj
          cases hj
        · have h1' : lookupKey (updateKey s.jobs id (runTry env j id fs).1) id₀
              = some j' := h1
          rw [lookupKey_update_ne _ _ hid, h0] at h1'
          cases h1'
      · intro id₀ j₀ j' h0 h1
        have h1' : lookupKey (updateKey s.jobs id (runTry env j id fs).1) id₀
            = some j' := h1
        by_cases hid : id₀ = id
        · rw [hid] at h0 h1'
          have hj0 : j₀ = j := lookup_unique h0 hj
          have hnew := lookupKey_update_self hj (runTry env j id fs).1
          have hj' : j' = (runTry env j id fs).1 := lookup_unique h1' hnew
          rw [hj0, hj']
          rcases runTry_fst_cases env j id fs with hcase | ⟨m, hcase⟩
          · rw [hcase]
            exact Or.inr (Or.inr ⟨hjp, Or.inl rfl⟩)
          · rw [hcase]
            exact Or.inr (Or.inr ⟨hjp, Or.inr rfl⟩)
        · rw [lookupKey_update_ne _ _ hid] at h1'
          have hjj : j' = j₀ := lookup_unique h1' h0
          rw [hjj]
          exact Or.inl rfl

theorem step_terminal_frozen {s s' : SysState} (hInv : Inv s) (hStep : Step s s')
    {id : String} {j : Job} (hj : lookupKey s.jobs id = some j)
    (hterm : j.status = Status.done ∨ j.status = Status.error) :
    lookupKey s'.jobs id = some j := by
  cases hStep with
  | submit id₁ fn form s2 hfresh hok =>
      obtain ⟨-, -, hs'⟩ := upload_ok_inv hok
      subst hs'
      rw [dictInsert_of_fresh hfresh]
      exact lookupKey_append_left hj _
  | dequeue id₁ rest j₁ hw hq hj₁ =>
      have hne : id ≠ id₁ := by
        intro h
        subst h
        obtain ⟨j₂, hj₂, hst₂⟩ := hInv.queuedInStore id (by rw [hq]; exact List.mem_cons_self _ _)
        rw [lookup_unique hj hj₂, hst₂] at hterm
        rcases hterm with h' | h' <;> cases h'
      have := lookupKey_update_ne (l := s.jobs) { j₁ with status := Status.processing } hne
      exact this.trans hj
  | finish id₁ j₁ env fs hw hj₁ =>
      have hne : id ≠ id₁ := by
        intro h
        subst h
        obtain ⟨j₂, hj₂, hst₂⟩ := hInv.workerProcessing id hw
        rw [lookup_unique hj hj₂, hst₂] at hterm
        rcases hterm with h' | h' <;> cases h'
      have := lookupKey_update_ne (l := s.jobs) (runTry env j₁ id₁ fs).1 hne
      exact this.trans hj

theorem star_terminal_frozen {s t : SysState} (hr : Reachable s) (hst : StepStar s t)
    {id : String} {j : Job} (hj : lookupKey s.jobs id = some j)
    (hterm : j.status = Status.done ∨ j.status = Status.error) :
    lookupKey t.jobs id = some j := by
  induction hst with
  | refl => exact hj
  | tail hst' hstep ih =>
      exact step_terminal_frozen (inv_reachable (reachable_star hr hst')) hstep ih hterm

/-! ## Claim C1 — input-artifact deletion at terminal states -/

/-- C1 counterexample: one worker iteration in which the segmentation
call fails.  The job reaches the terminal state `error`, yet the
uploaded input artifact is still present on the filesystem — the
`unlink` in the source sits on the success path only, so the claimed
deletion after the `processing → error` transition does not happen. -/
theorem c1_counterexample :
    (runTry ⟨Except.ok (), Except.error "boom", Except.ok ()⟩
        (mkJob "img.tif" [] "abcd1234-0000") "abcd1234-0000"
        ["uploads/img_abcd1234.tif"]).1.status = Status.error ∧
      "uploads/img_abcd1234.tif" ∈
        (runTry ⟨Except.ok (), Except.error "boom", Except.ok ()⟩
          (mkJob "img.tif" [] "abcd1234-0000") "abcd1234-0000"
          ["uploads/img_abcd1234.tif"]).2 := by
  constructor
  · rfl
  · decide

/-- C1 amended: every worker iteration ends in a terminal state, but the
input artifact is deleted only on the success path (`processing → done`);
on any failure (`processing → error`) the filesystem is left untouched
and the input artifact survives. -/
theorem c1_amended (env : WorkerEnv) (j : Job) (id : String) (fs : List String) :
    ((runTry env j id fs).1.status = Status.done ∨
      (runTry env j id fs).1.status = Status.error) ∧
    ((runTry env j id fs).1.status = Status.error → (runTry env j id fs).2 = fs) ∧
    ((runTry env j id fs).1.status = Status.done →
      List.count j.upload_path fs ≤ 1 → j.upload_path ≠ resultPathFor j id →
      j.upload_path ∉ (runTry env j id fs).2) := by
  refine ⟨?_, ?_, ?_⟩
  · rcases runTry_fst_cases env j id fs with hcase | ⟨m, hcase⟩
    · rw [hcase]
      exact Or.inl rfl
    · rw [hcase]
      exact Or.inr rfl
  · exact runTry_snd_of_error env j id fs
  · intro hdone hcount hne
    rw [runTry_snd_of_done env j id fs hdone]
    set u := j.upload_path with hu
    set r := resultPathFor j id with hr
    have h1 : (fs.insert r).count u = fs.count u := by
      by_cases hrm : r ∈ fs
      · rw [List.insert_of_mem hrm]
      · rw [List.insert_of_not_mem hrm]
        exact List.count_cons_of_ne hne fs
    have h2 : ((fs.insert r).erase u).count u = (fs.insert r).count u - 1 :=
      List.count_erase_self u (fs.insert r)
    intro hmem
    have h3 : 0 < ((fs.insert r).erase u).count u := List.count_pos_iff.mpr hmem
    omega

/-- C1 amended, witnessed at a fully successful iteration on the example
job: the status is `done` and the input artifact has been removed. -/
theorem c1_witness :
    exJob.upload_path ∉ (runTry exEnvOk exJob "job-1" [exJob.upload_path]).2 :=
  (c1_amended exEnvOk exJob "job-1" [exJob.upload_path]).2.2 (by rfl) (by decide) (by decide)

/-! ## Claim C2 — rejection of malformed numeric settings -/

/-- C2 counterexample: the form field `flow_threshold="abc"` does not
parse as a float, yet the upload succeeds, the job is created and
enqueued, and the malformed field is silently replaced by its default
`0.4` — there is no `ValidationError` path in `upload` at all. -/
theorem c2_counterexample :
    upload ⟨[], [], none⟩ "job-2" (some "a.tif") [("flow_threshold", "abc")] =
      Except.ok ("job-2",
        ⟨[("job-2", mkJob "a.tif" [("flow_threshold", "abc")] "job-2")],
          ["job-2"], none⟩) ∧
    pyFloat "abc" = none ∧
    (uploadSettings [("flow_threshold", "abc")]).flow_threshold = 2/5 := by
  refine ⟨rfl, by decide, rfl⟩

/-- C2 amended: whenever a file with a nonempty filename is present the
request succeeds — numeric fields never cause rejection.  A field whose
value fails to parse as its declared kind is silently replaced by its
default (flow_threshold 0.4, min_size 15), and the job is inserted into
the store and enqueued regardless. -/
theorem c2_amended (st : SysState) (id fn : String) (form : Form) (hfn : fn ≠ "") :
    (∃ st', upload st id (some fn) form = Except.ok (id, st') ∧
      lookupKey st'.jobs id = some (mkJob fn form id) ∧
      st'.queue = st.queue ++ [id]) ∧
    (∀ v, lookupKey form "flow_threshold" = some v → pyFloat v = none →
      (uploadSettings form).flow_threshold = 2/5) ∧
    (∀ v, lookupKey form "min_size" = some v → pyInt v = none →
      (uploadSettings form).min_size = 15) := by
  refine ⟨?_, ?_, ?_⟩
  · refine ⟨⟨dictInsert st.jobs id (mkJob fn form id), st.queue ++ [id], st.worker⟩,
      ?_, ?_, rfl⟩
    · simp [upload, hfn]
    · exact lookupKey_dictInsert_self st.jobs id (mkJob fn form id)
  · intro v hv hpf
    simp [uploadSettings, floatOr, hv, hpf]
  · intro v hv hpi
    simp [uploadSettings, intOr, hv, hpi]

/-- C2 amended, witnessed at a concrete malformed submission. -/
theorem c2_witness :
    (∃ st', upload ⟨[], [], none⟩ "job-2w" (some "a.tif")
        [("flow_threshold", "abc"), ("min_size", "zz")] = Except.ok ("job-2w", st') ∧
      lookupKey st'.jobs "job-2w"
        = some (mkJob "a.tif" [("flow_threshold", "abc"), ("min_size", "zz")] "job-2w") ∧
      st'.queue = [] ++ ["job-2w"]) ∧
    (uploadSettings [("flow_threshold", "abc"), ("min_size", "zz")]).flow_threshold = 2/5 ∧
    (uploadSettings [("flow_threshold", "abc"), ("min_size", "zz")]).min_size = 15 := by
  have h := c2_amended ⟨[], [], none⟩ "job-2w" "a.tif"
    [("flow_threshold", "abc"), ("min_size", "zz")] (by decide)
  exact ⟨h.1, h.2.1 "abc" (by decide) (by decide), h.2.2 "zz" (by decide) (by decide)⟩

/-! ## Claim C3 — channel indices bounded to {0,1,2,3} -/

/-- C3 counterexample: submitting `channel_cyto="7"` succeeds, and the
stored cytoplasm channel index is `7`, outside the claimed set
`{0,1,2,3}` — `upload` performs no bound check on channel indices. -/
theorem c3_counterexample :
    upload ⟨[], [], none⟩ "job-3" (some "a.tif") [("channel_cyto", "7")] =
      Except.ok ("job-3",
        ⟨[("job-3", mkJob "a.tif" [("channel_cyto", "7")] "job-3")], ["job-3"], none⟩) ∧
    (uploadSettings [("channel_cyto", "7")]).channels = [7, 0] ∧
    (7 : ℤ) ∉ ([0, 1, 2, 3] : List ℤ) := by
  refine ⟨rfl, by decide, by decide⟩

/-- C3 amended: the stored channel indices are exactly the integers the
two form fields parse to (any integer, unbounded), with default `0` when
a field is absent or malformed; no membership in {0,1,2,3} is enforced. -/
theorem c3_amended (form : Form) :
    (uploadSettings form).channels
        = [intOr form "channel_cyto" 0, intOr form "channel_nuc" 0] ∧
    (∀ v n, lookupKey form "channel_cyto" = some v → pyInt v = some n →
      intOr form "channel_cyto" 0 = n) ∧
    (∀ v n, lookupKey form "channel_nuc" = some v → pyInt v = some n →
      intOr form "channel_nuc" 0 = n) ∧
    (lookupKey form "channel_cyto" = none → intOr form "channel_cyto" 0 = 0) := by
  refine ⟨rfl, ?_, ?_, ?_⟩
  · intro v n hv hn
    simp [intOr, hv, hn]
  · intro v n hv hn
    simp [intOr, hv, hn]
  · intro h
    simp [intOr, h]

/-- C3 amended, witnessed at `channel_cyto="7"`: the stored index is 7. -/
theorem c3_witness :
    (uploadSettings [("channel_cyto", "7")]).channels
        = [intOr [("channel_cyto", "7")] "channel_cyto" 0, 0] ∧
    intOr [("channel_cyto", "7")] "channel_cyto" 0 = 7 := by
  have h := c3_amended [("channel_cyto", "7")]
  exact ⟨h.1, h.2.1 "7" 7 (by decide) (by decide)⟩

/-! ## Reachability of the example run -/

theorem exS1_reachable : Reachable exS1 :=
  Reachable.step Reachable.init
    (Step.submit ⟨[], [], none⟩ "job-1" "x.tif" exForm exS1 rfl rfl)

theorem exS2_reachable : Reachable exS2 :=
  Reachable.step exS1_reachable
    (Step.dequeue exS1 "job-1" [] exJob rfl rfl rfl)

/-! ## Claim C4 — result/error fields determined by status -/

/-- C4: in every reachable state of the job store, a record's `result`
field is non-null exactly when its status is `done`, and its `error`
field is non-null exactly when its status is `error`; this is an
invariant of the initial insert and of every worker transition. -/
theorem c4_terminal_fields_iff_status :
    ∀ s, Reachable s → ∀ id j, lookupKey s.jobs id = some j →
      (j.result.isSome ↔ j.status = Status.done) ∧
      (j.error.isSome ↔ j.status = Status.error) :=
  fun s hr id j hj =>
    ⟨(inv_reachable hr).resultIff id j hj, (inv_reachable hr).errorIff id j hj⟩

/-- C4 witnessed at the state reached by one submission. -/
theorem c4_witness :
    (exJob.result.isSome ↔ exJob.status = Status.done) ∧
    (exJob.error.isSome ↔ exJob.status = Status.error) :=
  c4_terminal_fields_iff_status exS1 exS1_reachable "job-1" exJob rfl

/-! ## Claim C5 — stability of the poll snapshot -/

/-- C5 counterexample: the snapshot taken under the lock copies only the
(id, record-reference) pairs; the record fields are read during
serialization, after the lock is released.  If the worker's first
terminal write (`status = "done"`) lands between the copy and the field
reads — possible because the serializing thread no longer holds the lock
— the caller observes status `done` paired with a still-null `result`. -/
theorem c5_counterexample :
    serializeSnapshot
        (snapshotIds [("job-5", { mkJob "x.tif" [] "job-5" with status := Status.processing })])
        (writeStatus [("job-5", { mkJob "x.tif" [] "job-5" with status := Status.processing })]
          "job-5" Status.done)
      = [("job-5", some (PublicView.mk "x.tif" Status.done none none))] := by
  rfl

/-- C5 amended: the snapshot fixes the set and order of entries (they
are immune to any later store writes), but it is a shallow copy: each
entry's fields are read from the live store at serialization time, so a
concurrent terminal write can be observed half-applied. -/
theorem c5_amended (store jobs2 : List (String × Job)) :
    ((serializeSnapshot (snapshotIds store) jobs2).map Prod.fst
        = (keysOf store).reverse) ∧
    (∀ id, id ∈ snapshotIds store →
      (id, (lookupKey jobs2 id).map publicView)
          ∈ serializeSnapshot (snapshotIds store) jobs2) := by
  constructor
  · simp only [serializeSnapshot, List.map_map, List.map_reverse]
    rw [show (Prod.fst ∘ fun id => (id, Option.map publicView (lookupKey jobs2 id)))
        = (fun id : String => id) from rfl]
    rw [show snapshotIds store = keysOf store from rfl, List.map_id']
  · intro id hmem
    have h : id ∈ (snapshotIds store).reverse := List.mem_reverse.mpr hmem
    exact List.mem_map_of_mem _ h

/-- C5 amended, witnessed after a half-applied terminal write. -/
theorem c5_witness :
    ("job-1", (lookupKey (writeStatus exS1.jobs "job-1" Status.done) "job-1").map publicView)
        ∈ serializeSnapshot (snapshotIds exS1.jobs)
            (writeStatus exS1.jobs "job-1" Status.done) :=
  (c5_amended exS1.jobs (writeStatus exS1.jobs "job-1" Status.done)).2 "job-1" (by decide)

/-! ## Claim C6 — poll returns one entry per job, newest first -/

/-- C6: in every reachable state, the poll output carries exactly the
store's keys in reverse insertion order (newest-submitted first), with
no duplicates and one entry per stored job. -/
theorem c6_poll_one_entry_per_job_newest_first :
    ∀ s, Reachable s →
      (pollStatus s.jobs).map Prod.fst = (keysOf s.jobs).reverse ∧
      ((pollStatus s.jobs).map Prod.fst).Nodup ∧
      (pollStatus s.jobs).length = s.jobs.length := by
  intro s hr
  have hfst : (pollStatus s.jobs).map Prod.fst = (keysOf s.jobs).reverse := by
    simp [pollStatus, keysOf, List.map_map, List.map_reverse, Function.comp]
  refine ⟨hfst, ?_, ?_⟩
  · rw [hfst]
    exact List.nodup_reverse.mpr (inv_reachable hr).nodupKeys
  · simp [pollStatus]

/-- C6 witnessed at the state reached by one submission. -/
theorem c6_witness :
    (pollStatus exS1.jobs).map Prod.fst = (keysOf exS1.jobs).reverse ∧
    ((pollStatus exS1.jobs).map Prod.fst).Nodup ∧
    (pollStatus exS1.jobs).length = exS1.jobs.length :=
  c6_poll_one_entry_per_job_newest_first exS1 exS1_reachable

/-! ## Claim C7 — download error taxonomy -/

/-- C7: `download` fails with `notFound` for an unknown identifier, with
`notReady` when the job exists but is not `done`, and with
`resultMissing` when the job is `done` but the recorded result path is
absent from the backing store; in each case no artifact is returned (the
outcome is an `error`) and the job store is left unchanged. -/
theorem c7_download_error_cases :
    ∀ (s : SysState) (fs : List String) (job_id : String),
      (lookupKey s.jobs job_id = none →
        downloadHandler s fs job_id = (Except.error DlError.notFound, s)) ∧
      (∀ j, lookupKey s.jobs job_id = some j → j.status ≠ Status.done →
        downloadHandler s fs job_id = (Except.error DlError.notReady, s)) ∧
      (∀ j p, lookupKey s.jobs job_id = some j → j.status = Status.done →
        j.result = some p → p ∉ fs →
        downloadHandler s fs job_id = (Except.error DlError.resultMissing, s)) := by
  intro s fs job_id
  refine ⟨?_, ?_, ?_⟩
  · intro h
    simp [downloadHandler, download, h]
  · intro j hj hst
    simp [downloadHandler, download, hj, hst]
  · intro j p hj hst hres hp
    simp [downloadHandler, download, hj, hst, hres, hp]

/-- C7 witnessed on the empty store: an unknown identifier is rejected
with `notFound` and the store is unchanged. -/
theorem c7_witness :
    downloadHandler ⟨[], [], none⟩ [] "nope"
      = (Except.error DlError.notFound, ⟨[], [], none⟩) :=
  (c7_download_error_cases ⟨[], [], none⟩ [] "nope").1 rfl

/-! ## Claim C8 — status monotonicity -/

/-- C8: a job appearing in the store starts at `queued`; every single
transition either keeps a job's status or moves it one edge forward
along `queued → processing → (done or error)`; and once a job is in a
terminal state its record never changes again over any run. -/
theorem c8_status_moves_forward :
    (∀ s s', Reachable s → Step s s' →
      ∀ id j', lookupKey s.jobs id = none → lookupKey s'.jobs id = some j' →
        j'.status = Status.queued) ∧
    (∀ s s', Reachable s → Step s s' →
      ∀ id j j', lookupKey s.jobs id = some j → lookupKey s'.jobs id = some j' →
        statusStepAllowed j.status j'.status) ∧
    (∀ s t, Reachable s → StepStar s t →
      ∀ id j j', lookupKey s.jobs id = some j → lookupKey t.jobs id = some j' →
        (j.status = Status.done ∨ j.status = Status.error) → j' = j) := by
  refine ⟨?_, ?_, ?_⟩
  · intro s s' hr hst id j' h0 h1
    exact (step_job_monotone (inv_reachable hr) hst).1 id j' h0 h1
  · intro s s' hr hst id j j' h0 h1
    exact (step_job_monotone (inv_reachable hr) hst).2 id j j' h0 h1
  · intro s t hr hst id j j' h0 h1 hterm
    exact lookup_unique h1 (star_terminal_frozen hr hst h0 hterm)

/-- C8 witnessed on the example run: the submitted job starts `queued`,
and the dequeue transition moves it forward to `processing`. -/
theorem c8_witness :
    exJob.status = Status.queued ∧
    statusStepAllowed exJob.status Status.processing := by
  constructor
  · exact c8_status_moves_forward.1 ⟨[], [], none⟩ exS1 Reachable.init
      (Step.submit ⟨[], [], none⟩ "job-1" "x.tif" exForm exS1 rfl rfl)
      "job-1" exJob rfl rfl
  · exact c8_status_moves_forward.2.1 exS1 exS2 exS1_reachable
      (Step.dequeue exS1 "job-1" [] exJob rfl rfl rfl)
      "job-1" exJob { exJob with status := Status.processing } rfl rfl

/-! ## Claim C9 — whitespace-only anisotropy -/

/-- C9 counterexample: `_parse_anisotropy` special-cases only the exact
empty string; on the whitespace-only string `"  "` it falls through to
`float("  ")`, which raises `ValueError` — parsing fails instead of
storing null. -/
theorem c9_counterexample :
    parse_anisotropy (PyVal.str "  ")
      = Except.error ("could not convert string to float: " ++ "  ") := by
  rfl

/-- C9 amended: the exact empty string, a `None` value, and an absent
field all yield a null anisotropy, but a whitespace-only string such as
`"  "` makes the validator raise a `ValueError` (validation fails). -/
theorem c9_amended :
    parse_anisotropy (PyVal.str "") = Except.ok Option.none ∧
    parse_anisotropy PyVal.none = Except.ok Option.none ∧
    anisotropyField Option.none = Except.ok Option.none ∧
    (∃ msg, parse_anisotropy (PyVal.str "  ") = Except.error msg) := by
  exact ⟨rfl, rfl, rfl, ⟨_, rfl⟩⟩

/-! ## Claim C10 — worker store lookups cannot fail -/

/-- C10: in every reachable state, every identifier in the work queue
has a record in the job store, so the worker's unguarded `jobs[job_id]`
lookup after a dequeue always succeeds — the `KeyError` branch is
unreachable.  This holds because `upload` inserts the record (under the
lock) strictly before enqueueing the identifier. -/
theorem c10_queue_ids_in_store :
    ∀ s, Reachable s → ∀ id, id ∈ s.queue → ∃ j, lookupKey s.jobs id = some j :=
  fun s hr id hmem =>
    ((inv_reachable hr).queuedInStore id hmem).imp (fun j h => h.1)

/-- C10 witnessed at the state reached by one submission. -/
theorem c10_witness : ∃ j, lookupKey exS1.jobs "job-1" = some j :=
  c10_queue_ids_in_store exS1 exS1_reachable "job-1" (by decide)

end TinyCp
